import Mathlib

/-!
Verification of the BMP decoder (bmp-no-std) against its specification.

The development shallowly embeds src/bmp-no-std/src/decoder.rs and
src/bmp-no-std/src/lib.rs.  Byte buffers are lists of naturals (each entry
a u8 value; the helpers reduce modulo 256 where the Rust u8 type would).
Fallible Rust code is embedded in the result type DRes, which separates
the typed BmpError results from fatal bounds failures (Rust panics, e.g.
out-of-range slicing or indexing), modelled by the constructor DRes.fatal.
-/

namespace BmpProof

/-- Pixel with three 8-bit channels (lib.rs, struct Pixel). -/
structure Pixel where
  r : Nat
  g : Nat
  b : Nat
deriving DecidableEq, Repr

/-- The 14-byte BMP file header (lib.rs, struct BmpHeader). -/
structure BmpHeader where
  file_size : Nat
  creator1 : Nat
  creator2 : Nat
  pixel_offset : Nat
deriving DecidableEq, Repr

/-- The DIB header fields (lib.rs, struct BmpDibHeader).  Width, height,
hres and vres are i32 in the source and are modelled as Int. -/
structure BmpDibHeader where
  header_size : Nat
  width : Int
  height : Int
  num_planes : Nat
  bits_per_pixel : Nat
  compress_type : Nat
  data_size : Nat
  hres : Int
  vres : Int
  num_colors : Nat
  num_imp_colors : Nat
deriving DecidableEq, Repr

/-- BMP format versions (lib.rs, enum BmpVersion). -/
inductive BmpVersion where
  | Two
  | Three
  | ThreeNT
  | Four
  | Five
deriving DecidableEq, Repr

/-- Version inference from the DIB header (lib.rs, BmpVersion::from_dib_header):
12 maps to V2; 40 with compression 3 to V3-NT, otherwise V3; 108 to V4;
124 to V5; anything else to no version. -/
def BmpVersion.from_dib_header (dh : BmpDibHeader) : Option BmpVersion :=
  if dh.header_size = 12 then some BmpVersion.Two
  else if dh.header_size = 40 then
    (if dh.compress_type = 3 then some BmpVersion.ThreeNT else some BmpVersion.Three)
  else if dh.header_size = 108 then some BmpVersion.Four
  else if dh.header_size = 124 then some BmpVersion.Five
  else none

/-- Compression types (lib.rs, enum CompressionType). -/
inductive CompressionType where
  | Uncompressed
  | Rle8bit
  | Rle4bit
  | BitfieldsEncoding
deriving DecidableEq, Repr

/-- lib.rs, CompressionType::from_u32: 1, 2, 3 map to the named compressed
encodings; every other value (including every value larger than 3) maps to
Uncompressed. -/
def CompressionType.from_u32 (val : Nat) : CompressionType :=
  match val with
  | 1 => CompressionType.Rle8bit
  | 2 => CompressionType.Rle4bit
  | 3 => CompressionType.BitfieldsEncoding
  | _ => CompressionType.Uncompressed

/-- The typed decode error kinds (decoder.rs, enum BmpErrorKind). -/
inductive BmpErrorKind where
  | WrongMagicNumbers
  | UnsupportedBitsPerPixel
  | UnsupportedCompressionType
  | UnsupportedBmpVersion
  | UnsupportedHeader
deriving DecidableEq, Repr

/-- Result of a decoding step: a value, a typed BmpError, or a fatal
bounds failure (a Rust panic from out-of-range slicing or indexing). -/
inductive DRes (α : Type) where
  | ok (a : α)
  | err (k : BmpErrorKind)
  | fatal
deriving DecidableEq, Repr

/-- Sequencing of decoding steps; models the question-mark operator
together with panic propagation. -/
def DRes.andThen {α β : Type} : DRes α → (α → DRes β) → DRes β
  | DRes.ok a, f => f a
  | DRes.err k, _ => DRes.err k
  | DRes.fatal, _ => DRes.fatal

@[simp] theorem DRes.andThen_ok {α β : Type} (a : α) (f : α → DRes β) :
    DRes.andThen (DRes.ok a) f = f a := rfl

@[simp] theorem DRes.andThen_err {α β : Type} (k : BmpErrorKind) (f : α → DRes β) :
    DRes.andThen (DRes.err k) f = DRes.err k := rfl

@[simp] theorem DRes.andThen_fatal {α β : Type} (f : α → DRes β) :
    DRes.andThen (DRes.fatal : DRes α) f = DRes.fatal := rfl

/-- A byte of a list, reduced modulo 256 to model the Rust u8 type
(the reduction is the identity on actual byte values). -/
def byteAt (l : List Nat) (i : Nat) : Nat := l.getD i 0 % 256

/-- decoder.rs, u32_from_slice: little-endian u32 from the first four
bytes of a slice (from_ne_bytes on the little-endian reference host). -/
def u32le (bs : List Nat) : Nat :=
  byteAt bs 0 + 256 * byteAt bs 1 + 65536 * byteAt bs 2 + 16777216 * byteAt bs 3

/-- decoder.rs, u16_from_slice: little-endian u16 from the first two
bytes of a slice. -/
def u16le (bs : List Nat) : Nat :=
  byteAt bs 0 + 256 * byteAt bs 1

/-- Reinterpretation of a u32 value as an i32 (the as-cast in the source). -/
def i32ofU32 (v : Nat) : Int :=
  if v < 2147483648 then (v : Int) else (v : Int) - 4294967296

/-- decoder.rs, read_bmp_id: requires the two magic bytes 66 77; slicing a
buffer shorter than two bytes is a fatal bounds failure. -/
def read_bmp_id (buf : List Nat) : DRes Unit :=
  if 2 ≤ buf.length then
    (if buf.take 2 = [66, 77] then DRes.ok ()
     else DRes.err BmpErrorKind.WrongMagicNumbers)
  else DRes.fatal

/-- decoder.rs, read_bmp_header: reads bytes 2 to 13 of the buffer; the
slicing is a fatal bounds failure on a buffer shorter than 14 bytes. -/
def read_bmp_header (buf : List Nat) : DRes BmpHeader :=
  if 14 ≤ buf.length then
    DRes.ok
      { file_size := u32le ((buf.drop 2).take 4)
        creator1 := u16le ((buf.drop 6).take 2)
        creator2 := u16le ((buf.drop 8).take 2)
        pixel_offset := u32le ((buf.drop 10).take 4) }
  else DRes.fatal

/-- The raw 11-field DIB record read from bytes 14 to 53 of the buffer
(decoder.rs, read_bmp_dib_header, before validation). -/
def parse_dib_raw (buf : List Nat) : BmpDibHeader :=
  { header_size := u32le ((buf.drop 14).take 4)
    width := i32ofU32 (u32le ((buf.drop 18).take 4))
    height := i32ofU32 (u32le ((buf.drop 22).take 4))
    num_planes := u16le ((buf.drop 26).take 2)
    bits_per_pixel := u16le ((buf.drop 28).take 2)
    compress_type := u32le ((buf.drop 30).take 4)
    data_size := u32le ((buf.drop 34).take 4)
    hres := i32ofU32 (u32le ((buf.drop 38).take 4))
    vres := i32ofU32 (u32le ((buf.drop 42).take 4))
    num_colors := u32le ((buf.drop 46).take 4)
    num_imp_colors := u32le ((buf.drop 50).take 4) }

/-- The bits-per-pixel and compression checks that run after the version
check in decoder.rs, read_bmp_dib_header. -/
def dib_checks_tail (dh : BmpDibHeader) : DRes BmpDibHeader :=
  if dh.bits_per_pixel = 1 ∨ dh.bits_per_pixel = 4 ∨ dh.bits_per_pixel = 8 ∨
      dh.bits_per_pixel = 24 then
    match CompressionType.from_u32 dh.compress_type with
    | CompressionType.Uncompressed => DRes.ok dh
    | _ => DRes.err BmpErrorKind.UnsupportedCompressionType
  else DRes.err BmpErrorKind.UnsupportedBitsPerPixel

/-- decoder.rs, read_bmp_dib_header: reads the DIB record (a fatal bounds
failure on a buffer shorter than 54 bytes), then validates version,
bits-per-pixel and compression type, in this order. -/
def read_bmp_dib_header (buf : List Nat) : DRes BmpDibHeader :=
  if 54 ≤ buf.length then
    match BmpVersion.from_dib_header (parse_dib_raw buf) with
    | some BmpVersion.Three => dib_checks_tail (parse_dib_raw buf)
    | some BmpVersion.Four => dib_checks_tail (parse_dib_raw buf)
    | some BmpVersion.Five => dib_checks_tail (parse_dib_raw buf)
    | some _ => DRes.err BmpErrorKind.UnsupportedBmpVersion
    | none => DRes.err BmpErrorKind.UnsupportedHeader
  else DRes.fatal

/-- One 4-byte palette entry starting at a given buffer position; the
bytes are stored as blue, green, red, reserved and the channels are
reordered (decoder.rs, read_color_palette loop body). -/
def paletteEntry (buf : List Nat) (start : Nat) : Pixel :=
  { r := byteAt ((buf.drop start).take 4) 2
    g := byteAt ((buf.drop start).take 4) 1
    b := byteAt ((buf.drop start).take 4) 0 }

/-- decoder.rs, read_color_palette, after the entry count is determined:
V2 headers are rejected (3-byte entries unsupported); otherwise the
entries are 4 bytes each starting at 14 + header_size, and reading past
the buffer is a fatal bounds failure. -/
def read_palette_entries (buf : List Nat) (dh : BmpDibHeader)
    (numEntries : Nat) : DRes (Option (List Pixel)) :=
  match BmpVersion.from_dib_header dh with
  | some BmpVersion.Two => DRes.err BmpErrorKind.UnsupportedBmpVersion
  | _ =>
    if 14 + dh.header_size + numEntries * 4 ≤ buf.length then
      DRes.ok (some ((List.range numEntries).map (fun i =>
        paletteEntry buf (14 + dh.header_size + i * 4))))
    else DRes.fatal

/-- decoder.rs, read_color_palette: a palette exists when the declared
color count is nonzero (that count many entries) or the bit depth is 1, 4
or 8 (2 to the bit depth many entries); otherwise there is no palette. -/
def read_color_palette (buf : List Nat) (dh : BmpDibHeader) :
    DRes (Option (List Pixel)) :=
  if dh.num_colors ≠ 0 then read_palette_entries buf dh dh.num_colors
  else if dh.bits_per_pixel = 1 ∨ dh.bits_per_pixel = 4 ∨ dh.bits_per_pixel = 8 then
    read_palette_entries buf dh (1 <<< dh.bits_per_pixel)
  else DRes.ok none

/-- The low nbits mask of the bit-index iterator (decoder.rs, bit_index:
the complement of 0 as u8, shifted right by 8 - nbits). -/
def bitMask (nbits : Nat) : Nat := 255 >>> (8 - nbits)

/-- The values yielded by the bit-index iterator (decoder.rs, BitIndex and
Iterator::next) when started at bit cursor idx with the given remaining
count.  Each step addresses byte idx / 8, extracts nbits bits at offset
(8 - nbits) - idx mod 8, and advances the cursor by nbits; the sequence
ends when the count is exhausted or the addressed byte does not exist. -/
def bitIndexFrom (bytes : List Nat) (nbits : Nat) : Nat → Nat → List Nat
  | _, 0 => []
  | idx, size + 1 =>
    match bytes[idx / 8]? with
    | none => []
    | some block =>
      ((block &&& (bitMask nbits <<< ((8 - nbits) - idx % 8))) >>>
          ((8 - nbits) - idx % 8)) ::
        bitIndexFrom bytes nbits (idx + nbits) size

/-- decoder.rs, bit_index: the iterator starts at bit cursor 0. -/
def bitIndexList (bytes : List Nat) (nbits size : Nat) : List Nat :=
  bitIndexFrom bytes nbits 0 size

/-- An unreduced nonnegative fraction: the exact value of an f64
intermediate result. -/
def QF : Type := Nat × Nat

/-- Exact division of fractions, modelling f64 division on the values the
decoder produces: for bit depths 1, 4 and 8 every intermediate value of
the bytes-per-row computation is a dyadic rational with fewer than 53
significant bits, so the f64 operations are exact and agree with this
model.  (For bit depth 24, reachable only when a nonzero color count
coexists with 24 bits per pixel, f64 rounding is not modelled; no claim
concerns that path.) -/
def QF.div (a b : QF) : QF := (a.1 * b.2, a.2 * b.1)

/-- Truncation of a nonnegative fraction to a natural number, modelling
the as-usize cast of a nonnegative f64 value. -/
def QF.trunc (a : QF) : Nat := a.1 / a.2

/-- decoder.rs, read_indexes: bytes_per_row = (width as f64 / (8.0 / bpp
as f64)) as usize, modelled by exact fraction arithmetic. -/
def bytes_per_row_f (width bpp : Nat) : Nat :=
  QF.trunc (QF.div (width, 1) (QF.div (8, 1) (bpp, 1)))

/-- decoder.rs, read_indexes: the per-row padding, 0 when bytes_per_row
is a multiple of 4 and otherwise 4 minus the remainder. -/
def padOf (bpr : Nat) : Nat :=
  match bpr % 4 with
  | 0 => 0
  | other => 4 - other

/-- Palette lookups for a list of indices; a lookup out of the palette
bounds is a failure (the Rust indexing panic in read_indexes). -/
def lookupAll (pal : List Pixel) : List Nat → Option (List Pixel)
  | [] => some []
  | i :: is =>
    match pal[i]? with
    | none => none
    | some p =>
      match lookupAll pal is with
      | none => none
      | some ps => some (p :: ps)

/-- decoder.rs, read_indexes: the row loop, processing the rows at
y, y + 1, ... .  Each row slices bytes_per_row bytes starting at
offset + (bytes_per_row + padding) * y (a fatal bounds failure when the
slice leaves the buffer), runs the bit-index iterator over the slice with
size = width, and pushes the palette entry of every yielded index. -/
def read_indexes_rows (buf : List Nat) (palette : List Pixel)
    (width bpp offset : Nat) : Nat → Nat → DRes (List Pixel)
  | _, 0 => DRes.ok []
  | y, rows + 1 =>
    let bpr := bytes_per_row_f width bpp
    let padding := padOf bpr
    let start := offset + (bpr + padding) * y
    if start + bpr ≤ buf.length then
      match lookupAll palette (bitIndexList ((buf.drop start).take bpr) bpp width) with
      | some ps =>
        (match read_indexes_rows buf palette width bpp offset (y + 1) rows with
         | DRes.ok rest => DRes.ok (ps ++ rest)
         | r => r)
      | none => DRes.fatal
    else DRes.fatal

/-- decoder.rs, read_indexes: processes the rows 0, ..., height - 1. -/
def read_indexes (buf : List Nat) (palette : List Pixel)
    (width height bpp offset : Nat) : DRes (List Pixel) :=
  read_indexes_rows buf palette width bpp offset 0 height

/-- decoder.rs, read_pixels: the flat loop body; the pixel at linear
position k is read from the three bytes at offset + k * 4 (the fourth
byte of the 4-byte slot is skipped), stored on disk as blue, green, red
and emitted with the channels reordered.  The two nested loops of the
source visit the linear positions 0, ..., height * width - 1 in order,
embedded here as one recursion over the remaining count. -/
def read_pixels_go (buf : List Nat) (offset : Nat) : Nat → Nat → DRes (List Pixel)
  | _, 0 => DRes.ok []
  | k, rem + 1 =>
    if offset + k * 4 + 3 ≤ buf.length then
      match read_pixels_go buf offset (k + 1) rem with
      | DRes.ok rest =>
        DRes.ok
          ({ r := byteAt ((buf.drop (offset + k * 4)).take 3) 2
             g := byteAt ((buf.drop (offset + k * 4)).take 3) 1
             b := byteAt ((buf.drop (offset + k * 4)).take 3) 0 } :: rest)
      | r => r
    else DRes.fatal

/-- decoder.rs, read_pixels. -/
def read_pixels (buf : List Nat) (width height offset : Nat) : DRes (List Pixel) :=
  read_pixels_go buf offset 0 (height * width)

/-- lib.rs, the row size of the file_size macro for the synthesized DIB
header: ((bpp * width + 31) / 32) * 4.  The source computes the quotient
in f32; no claim inspects the affected fields, and the rounding is exact
for the widths of the tests. -/
def fileSizeRow (bpp width : Nat) : Nat := ((bpp * width + 31) / 32) * 4

/-- lib.rs, BmpDibHeader::new: the synthesized 24-bit uncompressed DIB
header stored in a decoded image. -/
def BmpDibHeader.new (width height : Nat) : BmpDibHeader :=
  { header_size := 40
    width := i32ofU32 width
    height := i32ofU32 height
    num_planes := 1
    bits_per_pixel := 24
    compress_type := 0
    data_size := height * fileSizeRow 24 width
    hres := 1000
    vres := 1000
    num_colors := 0
    num_imp_colors := 0 }

/-- The decoded image (lib.rs, struct Image). -/
structure Image where
  header : BmpHeader
  dib_header : BmpDibHeader
  color_palette : Option (List Pixel)
  width : Nat
  height : Nat
  padding : Nat
  data : List Pixel
deriving DecidableEq, Repr

/-- decoder.rs, decode_image: the decode pipeline.  Magic check, file
header, DIB header with validation, optional palette; then the indexed
path when a palette exists and the direct-color path otherwise; finally
the Image is assembled with width and height the absolute values of the
header fields, auxiliary padding width mod 4, and a freshly synthesized
DIB header. -/
def decode_image (buf : List Nat) : DRes Image :=
  DRes.andThen (read_bmp_id buf) (fun _ =>
  DRes.andThen (read_bmp_header buf) (fun header =>
  DRes.andThen (read_bmp_dib_header buf) (fun dib =>
  DRes.andThen (read_color_palette buf dib) (fun cp =>
  DRes.andThen
    (match cp with
     | some pal =>
       read_indexes buf pal dib.width.natAbs dib.height.natAbs
         dib.bits_per_pixel header.pixel_offset
     | none =>
       read_pixels buf dib.width.natAbs dib.height.natAbs header.pixel_offset)
    (fun data =>
      DRes.ok
        { header := header
          dib_header := BmpDibHeader.new dib.width.natAbs dib.height.natAbs
          color_palette := cp
          width := dib.width.natAbs
          height := dib.height.natAbs
          padding := dib.width.natAbs % 4
          data := data })))))

/-- lib.rs, Image::set_pixel: writes the flat entry (height - y - 1) *
width + x.  The source indexing panics out of range; the claims about the
accessors carry in-range hypotheses, under which List.set coincides. -/
def Image.set_pixel (img : Image) (x y : Nat) (val : Pixel) : Image :=
  { img with data := img.data.set ((img.height - y - 1) * img.width + x) val }

/-- lib.rs, Image::get_pixel: reads the flat entry (height - y - 1) *
width + x.  The source indexing panics out of range; the claims about the
accessors carry in-range hypotheses, under which getD coincides. -/
def Image.get_pixel (img : Image) (x y : Nat) : Pixel :=
  img.data.getD ((img.height - y - 1) * img.width + x) { r := 0, g := 0, b := 0 }

/-- Follows the spec's words on the indexed path: row y is sliced as
exactly bytes_per_row bytes starting at offset + (bytes_per_row +
padding) * y (padding bytes are never part of the slice), the bit-index
iterator runs over the slice with size = width, and every yielded index
is looked up in the palette. -/
def row_slice_pixels (buf : List Nat) (pal : List Pixel)
    (width bpp offset y : Nat) : List Pixel :=
  (bitIndexList
      ((buf.drop (offset +
          (bytes_per_row_f width bpp + padOf (bytes_per_row_f width bpp)) * y)).take
        (bytes_per_row_f width bpp))
      bpp width).map (fun i => pal.getD i { r := 0, g := 0, b := 0 })

/-- Four bytes of a 32-bit little-endian value, for building test buffers. -/
def le4 (v : Nat) : List Nat := [v % 256, v / 256 % 256, v / 65536 % 256, v / 16777216 % 256]

/-- Two bytes of a 16-bit little-endian value, for building test buffers. -/
def le2 (v : Nat) : List Nat := [v % 256, v / 256 % 256]

/-- A 54-byte BMP header (14-byte file header plus 40-byte DIB record)
followed by the given tail bytes, for building concrete test buffers. -/
def mkBmpBuf (fileSize pixelOffset headerSize width height planes bpp compress
    dataSize hres vres numColors numImp : Nat) (tail : List Nat) : List Nat :=
  [66, 77] ++ le4 fileSize ++ le2 0 ++ le2 0 ++ le4 pixelOffset ++
  le4 headerSize ++ le4 width ++ le4 height ++ le2 planes ++ le2 bpp ++
  le4 compress ++ le4 dataSize ++ le4 hres ++ le4 vres ++ le4 numColors ++
  le4 numImp ++ tail

/-- A 1 x 1 image with 1 bit per pixel: two palette entries at bytes 54
to 61, pixel data at offset 62 with bytes_per_row = 0, so the row slice
is empty and the bit-index iterator yields nothing. -/
def c2buf : List Nat := mkBmpBuf 0 62 40 1 1 1 1 0 0 0 0 0 0 (List.replicate 8 0)

/-- A valid 1 x 1 24-bit image: pixel bytes blue 10, green 20, red 30,
padding 99 at offset 54. -/
def c2okbuf : List Nat := mkBmpBuf 0 54 40 1 1 1 24 0 0 0 0 0 0 [10, 20, 30, 99]

/-- The image decoded from c2okbuf. -/
def c2okimg : Image :=
  { header := { file_size := 0, creator1 := 0, creator2 := 0, pixel_offset := 54 }
    dib_header := BmpDibHeader.new 1 1
    color_palette := none
    width := 1
    height := 1
    padding := 1
    data := [{ r := 30, g := 20, b := 10 }] }

/-- A 1 x 1 24-bit buffer whose compression code is 7: nonzero, yet not
one of the named codes 1, 2, 3. -/
def c3buf : List Nat := mkBmpBuf 0 54 40 1 1 1 24 7 0 0 0 0 0 [10, 20, 30, 99]

/-- A 1 x 1 24-bit buffer whose compression code is 2 (RLE-4). -/
def c3bufb : List Nat := mkBmpBuf 0 54 40 1 1 1 24 2 0 0 0 0 0 [10, 20, 30, 99]

/-- A 1 x 1 24-bit buffer whose compression code is 5: nonzero, yet not
one of the named codes 1, 2, 3. -/
def c4buf : List Nat := mkBmpBuf 0 54 40 1 1 1 24 5 0 0 0 0 0 [1, 2, 3, 4]

/-- A buffer with header size 12 (V2) and bits per pixel 16 (also
unsupported). -/
def c4buf12 : List Nat := mkBmpBuf 0 54 12 1 1 1 16 0 0 0 0 0 0 []

/-- A buffer with header size 40 and compression code 3 (the V3-NT
variant). -/
def c4buf40c3 : List Nat := mkBmpBuf 0 54 40 1 1 1 24 3 0 0 0 0 0 []

/-- A 1 x 1 24-bit buffer whose compression code is 1 (RLE-8). -/
def c4bufb : List Nat := mkBmpBuf 0 54 40 1 1 1 24 1 0 0 0 0 0 [1, 2, 3, 4]

/-- Two packed 4-bit rows (one data byte and three padding bytes each):
row 0 packs the indices 1, 2 and row 1 packs 3, 4. -/
def c5buf : List Nat := [18, 0, 0, 0, 52, 0, 0, 0]

/-- A five-entry palette for the c5buf rows. -/
def c5pal : List Pixel :=
  [{ r := 0, g := 0, b := 0 }, { r := 1, g := 1, b := 1 }, { r := 2, g := 2, b := 2 },
   { r := 3, g := 3, b := 3 }, { r := 4, g := 4, b := 4 }]

/-- A valid 1 x 1 24-bit image with pixel bytes blue 5, green 6, red 7
and padding byte 8 at offset 54. -/
def c6buf : List Nat := mkBmpBuf 0 54 40 1 1 1 24 0 0 0 0 0 0 [5, 6, 7, 8]

/-- A 2 x 2 image value for exercising the pixel accessors. -/
def c8img : Image :=
  { header := { file_size := 0, creator1 := 0, creator2 := 0, pixel_offset := 54 }
    dib_header := BmpDibHeader.new 2 2
    color_palette := none
    width := 2
    height := 2
    padding := 2
    data := [{ r := 1, g := 1, b := 1 }, { r := 2, g := 2, b := 2 },
             { r := 3, g := 3, b := 3 }, { r := 4, g := 4, b := 4 }] }

/-- A 1 x 1 8-bit image declaring one palette color (bytes 54 to 57) but
whose single pixel byte at offset 58 is the index 5, outside the palette
bounds. -/
def c9buf : List Nat := mkBmpBuf 0 58 40 1 1 1 8 0 0 0 0 1 0 [0, 0, 0, 0, 5]

/-- The same image as c9buf except that the pixel byte is the in-bounds
index 0. -/
def c9okbuf : List Nat := mkBmpBuf 0 58 40 1 1 1 8 0 0 0 0 1 0 [0, 0, 0, 0, 0]

/-- An element of a take-of-drop slice is the corresponding element of
the base list. -/
theorem getD_take_drop (l : List Nat) (s n i : Nat) (hi : i < n)
    (hs : s + i < l.length) :
    ((l.drop s).take n).getD i 0 = l.getD (s + i) 0 := by
  have h1 : i < ((l.drop s).take n).length := by
    simp only [List.length_take, List.length_drop]
    omega
  have h2 : i < (l.drop s).length := by
    simp only [List.length_drop]; omega
  rw [List.getD_eq_getElem?_getD, List.getElem?_eq_getElem h1,
    List.getD_eq_getElem?_getD, List.getElem?_eq_getElem hs]
  simp [List.getElem_take, List.getElem_drop]

/-- The k-th value yielded by the bit-index iterator started at cursor
idx, as long as k is below the remaining count and the addressed byte
exists. -/
theorem bitIndexFrom_get (bytes : List Nat) (nbits : Nat) :
    ∀ (k size idx : Nat), k < size → (idx + k * nbits) / 8 < bytes.length →
      (bitIndexFrom bytes nbits idx size)[k]? =
        some ((bytes.getD ((idx + k * nbits) / 8) 0 &&&
            (bitMask nbits <<< ((8 - nbits) - (idx + k * nbits) % 8))) >>>
          ((8 - nbits) - (idx + k * nbits) % 8)) := by
  intro k
  induction k with
  | zero =>
    intro size idx hk hb
    match size, hk with
    | size + 1, _ =>
      simp only [Nat.zero_mul, Nat.add_zero] at hb ⊢
      rw [bitIndexFrom, List.getElem?_eq_getElem hb]
      simp [List.getD_eq_getElem?_getD, List.getElem?_eq_getElem hb]
  | succ k ih =>
    intro size idx hk hb
    match size, hk with
    | size + 1, hk =>
      have hb0 : idx / 8 < bytes.length := by
        have := Nat.div_le_div_right (c := 8) (Nat.le_add_right idx ((k + 1) * nbits))
        omega
      rw [bitIndexFrom, List.getElem?_eq_getElem hb0]
      simp only [List.getElem?_cons_succ]
      have harith : idx + nbits + k * nbits = idx + (k + 1) * nbits := by ring
      have hres := ih size (idx + nbits) (by omega) (by rw [harith]; exact hb)
      rw [harith] at hres
      exact hres

/-- The bit-index iterator yields min(size, available) values, where
available counts the cursor positions that still address a byte of the
row. -/
theorem bitIndexFrom_length (bytes : List Nat) (nbits : Nat)
    (hn : nbits = 1 ∨ nbits = 4 ∨ nbits = 8) :
    ∀ (size idx : Nat),
      (bitIndexFrom bytes nbits idx size).length =
        min size ((8 * bytes.length - idx + (nbits - 1)) / nbits) := by
  intro size
  induction size with
  | zero => intro idx; simp [bitIndexFrom]
  | succ size ih =>
    intro idx
    by_cases h : idx / 8 < bytes.length
    · rw [bitIndexFrom, List.getElem?_eq_getElem h]
      simp only [List.length_cons]
      rw [ih (idx + nbits)]
      have h8 : idx < 8 * bytes.length := by omega
      rcases hn with h1 | h1 | h1 <;> subst h1 <;> omega
    · have hnone : bytes[idx / 8]? = none := List.getElem?_eq_none (by omega)
      rw [bitIndexFrom, hnone]
      have h8 : 8 * bytes.length ≤ idx := by omega
      rcases hn with h1 | h1 | h1 <;> subst h1 <;> simp [h8]

/-- The bytes-per-row value of the source (exact f64 arithmetic) equals
the integer quotient width / (8 / bpp) for the supported bit depths. -/
theorem bytes_per_row_f_eq_div (width bpp : Nat) (hn : bpp = 1 ∨ bpp = 4 ∨ bpp = 8) :
    bytes_per_row_f width bpp = width / (8 / bpp) := by
  rcases hn with h | h | h
  · subst h; simp [bytes_per_row_f, QF.div, QF.trunc]
  · subst h; simp [bytes_per_row_f, QF.div, QF.trunc]; omega
  · subst h; simp [bytes_per_row_f, QF.div, QF.trunc]

/-- The bytes-per-row value as a single integer formula. -/
theorem bytes_per_row_f_eq_mul (width bpp : Nat) (hn : bpp = 1 ∨ bpp = 4 ∨ bpp = 8) :
    bytes_per_row_f width bpp = width * bpp / 8 := by
  rcases hn with h | h | h
  · subst h; simp [bytes_per_row_f, QF.div, QF.trunc]
  · subst h; simp [bytes_per_row_f, QF.div, QF.trunc]
  · subst h; simp [bytes_per_row_f, QF.div, QF.trunc]

/-- The padding match of the source equals the closed formula
(4 - bytes_per_row mod 4) mod 4. -/
theorem padOf_eq (b : Nat) : padOf b = (4 - b % 4) % 4 := by
  have h4 : b % 4 < 4 := Nat.mod_lt _ (by omega)
  rcases h : b % 4 with _ | _ | _ | _ | o
  · rw [padOf, h]
  · rw [padOf, h]
  · rw [padOf, h]
  · rw [padOf, h]
  · omega

/-- A successful batch of palette lookups returns the pointwise lookups,
and every looked-up index is within the palette bounds. -/
theorem lookupAll_ok (pal : List Pixel) :
    ∀ (is : List Nat) (ps : List Pixel), lookupAll pal is = some ps →
      ps = is.map (fun i => pal.getD i { r := 0, g := 0, b := 0 }) ∧
      ∀ i ∈ is, i < pal.length := by
  intro is
  induction is with
  | nil =>
    intro ps h
    simp only [lookupAll, Option.some_inj] at h
    simp [← h]
  | cons i is ih =>
    intro ps h
    rw [lookupAll] at h
    cases hp : pal[i]? with
    | none => rw [hp] at h; exact absurd h (by simp)
    | some p =>
      rw [hp] at h
      cases hrest : lookupAll pal is with
      | none => rw [hrest] at h; exact absurd h (by simp)
      | some ps2 =>
        rw [hrest] at h
        simp only [Option.some_inj] at h
        obtain ⟨h1, h2⟩ := ih ps2 hrest
        have hip : i < pal.length := by
          by_contra hc
          rw [List.getElem?_eq_none (by omega)] at hp
          cases hp
        constructor
        · rw [← h, h1]
          simp only [List.map_cons, List.cons.injEq]
          refine ⟨?_, trivial⟩
          rw [List.getD_eq_getElem?_getD, hp]
          rfl
        · intro j hj
          rcases List.mem_cons.mp hj with hj | hj
          · subst hj; exact hip
          · exact h2 j hj

/-- Inversion of a successful run of the read_indexes row loop: the
result is the concatenation of the per-row slices (each row sliced as
exactly bytes_per_row bytes at its computed start), and every row slice
lies within the buffer. -/
theorem read_indexes_rows_ok (buf : List Nat) (pal : List Pixel)
    (width bpp offset : Nat) :
    ∀ (rows y : Nat) (l : List Pixel),
      read_indexes_rows buf pal width bpp offset y rows = DRes.ok l →
      l = (List.range' y rows).flatMap (fun r => row_slice_pixels buf pal width bpp offset r) ∧
      ∀ r ∈ List.range' y rows,
        offset + (bytes_per_row_f width bpp + padOf (bytes_per_row_f width bpp)) * r +
            bytes_per_row_f width bpp ≤ buf.length := by
  intro rows
  induction rows with
  | zero =>
    intro y l h
    simp only [read_indexes_rows, DRes.ok.injEq] at h
    simp [← h]
  | succ rows ih =>
    intro y l h
    rw [read_indexes_rows] at h
    by_cases hle : offset + (bytes_per_row_f width bpp + padOf (bytes_per_row_f width bpp)) * y +
        bytes_per_row_f width bpp ≤ buf.length
    · rw [if_pos hle] at h
      cases hlk : lookupAll pal
          (bitIndexList
            ((buf.drop (offset +
                (bytes_per_row_f width bpp + padOf (bytes_per_row_f width bpp)) * y)).take
              (bytes_per_row_f width bpp)) bpp width) with
      | none => rw [hlk] at h; exact absurd h (by simp)
      | some ps =>
        rw [hlk] at h
        cases hrec : read_indexes_rows buf pal width bpp offset (y + 1) rows with
        | ok rest =>
          rw [hrec] at h
          simp only [DRes.ok.injEq] at h
          obtain ⟨hr1, hr2⟩ := ih (y + 1) rest hrec
          constructor
          · rw [← h, hr1, List.range'_succ, List.flatMap_cons]
            congr 1
            rw [row_slice_pixels]
            exact (lookupAll_ok pal _ ps hlk).1
          · intro r hr
            rw [List.range'_succ] at hr
            rcases List.mem_cons.mp hr with hr | hr
            · subst hr; exact hle
            · exact hr2 r hr
        | err k => rw [hrec] at h; exact absurd h (by simp)
        | fatal => rw [hrec] at h; exact absurd h (by simp)
    · rw [if_neg hle] at h
      exact absurd h (by simp)

/-- Inversion of a successful run of the read_pixels loop starting at
linear position k: the result has one pixel per remaining position, each
read from the three bytes of its 4-byte slot. -/
theorem read_pixels_go_ok (buf : List Nat) (offset : Nat) :
    ∀ (rem k : Nat) (l : List Pixel),
      read_pixels_go buf offset k rem = DRes.ok l →
      l.length = rem ∧
      ∀ j, j < rem → offset + (k + j) * 4 + 3 ≤ buf.length ∧
        l.getD j { r := 0, g := 0, b := 0 } =
          { r := byteAt ((buf.drop (offset + (k + j) * 4)).take 3) 2
            g := byteAt ((buf.drop (offset + (k + j) * 4)).take 3) 1
            b := byteAt ((buf.drop (offset + (k + j) * 4)).take 3) 0 } := by
  intro rem
  induction rem with
  | zero =>
    intro k l h
    simp only [read_pixels_go, DRes.ok.injEq] at h
    constructor
    · rw [← h]; rfl
    · intro j hj; omega
  | succ rem ih =>
    intro k l h
    rw [read_pixels_go] at h
    by_cases hle : offset + k * 4 + 3 ≤ buf.length
    · rw [if_pos hle] at h
      cases hrec : read_pixels_go buf offset (k + 1) rem with
      | ok rest =>
        rw [hrec] at h
        simp only [DRes.ok.injEq] at h
        obtain ⟨hlen, hget⟩ := ih (k + 1) rest hrec
        constructor
        · rw [← h]; simp [hlen]
        · intro j hj
          rcases j with _ | j
          · simpa [← h] using hle
          · have := hget j (by omega)
            have harith : k + 1 + j = k + (j + 1) := by omega
            rw [harith] at this
            refine ⟨this.1, ?_⟩
            rw [← h]
            simpa using this.2
      | err k2 => rw [hrec] at h; exact absurd h (by simp)
      | fatal => rw [hrec] at h; exact absurd h (by simp)
    · rw [if_neg hle] at h
      exact absurd h (by simp)

/-- The from_u32 mapping sends a code to Uncompressed exactly when the
code is not one of the named codes 1, 2, 3. -/
theorem from_u32_uncompressed_iff (v : Nat) :
    CompressionType.from_u32 v = CompressionType.Uncompressed ↔
      ¬(v = 1 ∨ v = 2 ∨ v = 3) := by
  rcases v with _ | _ | _ | _ | v
  · simp [CompressionType.from_u32]
  · simp [CompressionType.from_u32]
  · simp [CompressionType.from_u32]
  · simp [CompressionType.from_u32]
  · simp only [CompressionType.from_u32]
    constructor
    · intro _ hc; omega
    · intro _; trivial

/-- Inversion of the post-version checks: success returns the header
unchanged and means the bits-per-pixel and compression checks passed. -/
theorem dib_checks_tail_ok_inv {dh dib : BmpDibHeader}
    (h : dib_checks_tail dh = DRes.ok dib) :
    dib = dh ∧
    (dh.bits_per_pixel = 1 ∨ dh.bits_per_pixel = 4 ∨ dh.bits_per_pixel = 8 ∨
      dh.bits_per_pixel = 24) ∧
    CompressionType.from_u32 dh.compress_type = CompressionType.Uncompressed := by
  rw [dib_checks_tail] at h
  by_cases hb : dh.bits_per_pixel = 1 ∨ dh.bits_per_pixel = 4 ∨ dh.bits_per_pixel = 8 ∨
      dh.bits_per_pixel = 24
  · rw [if_pos hb] at h
    cases hc : CompressionType.from_u32 dh.compress_type with
    | Uncompressed =>
      rw [hc] at h
      simp only [DRes.ok.injEq] at h
      exact ⟨h.symm, hb, rfl⟩

    | Rle8bit => rw [hc] at h; exact absurd h (by simp)
    | Rle4bit => rw [hc] at h; exact absurd h (by simp)
    | BitfieldsEncoding => rw [hc] at h; exact absurd h (by simp)
  · rw [if_neg hb] at h
    exact absurd h (by simp)

/-- The post-version checks fail with UnsupportedCompressionType when the
bits-per-pixel check passes and the compression code maps to a named
compressed encoding. -/
theorem dib_checks_tail_err_compress {dh : BmpDibHeader}
    (hb : dh.bits_per_pixel = 1 ∨ dh.bits_per_pixel = 4 ∨ dh.bits_per_pixel = 8 ∨
      dh.bits_per_pixel = 24)
    (hc : CompressionType.from_u32 dh.compress_type ≠ CompressionType.Uncompressed) :
    dib_checks_tail dh = DRes.err BmpErrorKind.UnsupportedCompressionType := by
  rw [dib_checks_tail, if_pos hb]
  cases h : CompressionType.from_u32 dh.compress_type with
  | Uncompressed => exact absurd h hc
  | Rle8bit => rfl
  | Rle4bit => rfl
  | BitfieldsEncoding => rfl

/-- Inversion of a successful DIB header stage: the result is the raw
parsed record, the buffer holds the full 54-byte prefix, and the version,
bits-per-pixel and compression checks all passed. -/
theorem read_bmp_dib_header_ok_inv {buf : List Nat} {dib : BmpDibHeader}
    (h : read_bmp_dib_header buf = DRes.ok dib) :
    dib = parse_dib_raw buf ∧ 54 ≤ buf.length ∧
    (BmpVersion.from_dib_header (parse_dib_raw buf) = some BmpVersion.Three ∨
      BmpVersion.from_dib_header (parse_dib_raw buf) = some BmpVersion.Four ∨
      BmpVersion.from_dib_header (parse_dib_raw buf) = some BmpVersion.Five) ∧
    (dib.bits_per_pixel = 1 ∨ dib.bits_per_pixel = 4 ∨ dib.bits_per_pixel = 8 ∨
      dib.bits_per_pixel = 24) ∧
    CompressionType.from_u32 dib.compress_type = CompressionType.Uncompressed := by
  rw [read_bmp_dib_header] at h
  by_cases hl : 54 ≤ buf.length
  · rw [if_pos hl] at h
    cases hv : BmpVersion.from_dib_header (parse_dib_raw buf) with
    | none => rw [hv] at h; exact absurd h (by simp)
    | some v =>
      rw [hv] at h
      cases v with
      | Two => exact absurd h (by simp)
      | ThreeNT => exact absurd h (by simp)
      | Three =>
        obtain ⟨he, hb, hc⟩ := dib_checks_tail_ok_inv h
        subst he
        exact ⟨rfl, hl, Or.inl rfl, hb, hc⟩
      | Four =>
        obtain ⟨he, hb, hc⟩ := dib_checks_tail_ok_inv h
        subst he
        exact ⟨rfl, hl, Or.inr (Or.inl rfl), hb, hc⟩
      | Five =>
        obtain ⟨he, hb, hc⟩ := dib_checks_tail_ok_inv h
        subst he
        exact ⟨rfl, hl, Or.inr (Or.inr rfl), hb, hc⟩
  · rw [if_neg hl] at h
    exact absurd h (by simp)

/-- The magic check succeeds on every buffer starting with the two magic
bytes. -/
theorem read_bmp_id_ok {buf : List Nat} (hm : buf.take 2 = [66, 77]) :
    read_bmp_id buf = DRes.ok () := by
  have hl : 2 ≤ buf.length := by
    have := congrArg List.length hm
    simp only [List.length_take] at this
    simp at this
    omega
  rw [read_bmp_id, if_pos hl, if_pos hm]

/-- The file header stage succeeds on every buffer of at least 14 bytes. -/
theorem read_bmp_header_ok {buf : List Nat} (hl : 14 ≤ buf.length) :
    read_bmp_header buf =
      DRes.ok
        { file_size := u32le ((buf.drop 2).take 4)
          creator1 := u16le ((buf.drop 6).take 2)
          creator2 := u16le ((buf.drop 8).take 2)
          pixel_offset := u32le ((buf.drop 10).take 4) } := by
  rw [read_bmp_header, if_pos hl]

/-- The entry-reading half of the palette stage never reports the
absence of a palette. -/
theorem read_palette_entries_ne_ok_none (buf : List Nat) (dh : BmpDibHeader)
    (n : Nat) : read_palette_entries buf dh n ≠ DRes.ok none := by
  rw [read_palette_entries]
  rcases hv : BmpVersion.from_dib_header dh with _ | v
  · by_cases hle : 14 + dh.header_size + n * 4 ≤ buf.length
    · simp [hle]
    · simp [hle]
  · cases v <;> by_cases hle : 14 + dh.header_size + n * 4 ≤ buf.length <;> simp [hle]

/-- Inversion of a palette stage that returns no palette: the declared
color count is zero and the bit depth is not 1, 4 or 8. -/
theorem read_color_palette_ok_none_inv {buf : List Nat} {dh : BmpDibHeader}
    (h : read_color_palette buf dh = DRes.ok none) :
    dh.num_colors = 0 ∧
    ¬(dh.bits_per_pixel = 1 ∨ dh.bits_per_pixel = 4 ∨ dh.bits_per_pixel = 8) := by
  rw [read_color_palette] at h
  by_cases h0 : dh.num_colors ≠ 0
  · rw [if_pos h0] at h
    exact absurd h (read_palette_entries_ne_ok_none buf dh dh.num_colors)
  · rw [if_neg h0] at h
    push_neg at h0
    by_cases hb : dh.bits_per_pixel = 1 ∨ dh.bits_per_pixel = 4 ∨ dh.bits_per_pixel = 8
    · rw [if_pos hb] at h
      exact absurd h (read_palette_entries_ne_ok_none buf dh (1 <<< dh.bits_per_pixel))
    · exact ⟨h0, hb⟩

/-- The palette stage returns no palette for a 24-bit header with a zero
declared color count. -/
theorem read_color_palette_none_of {buf : List Nat} {dh : BmpDibHeader}
    (h0 : dh.num_colors = 0) (hb : dh.bits_per_pixel = 24) :
    read_color_palette buf dh = DRes.ok none := by
  rw [read_color_palette]
  simp [h0, hb]

/-- Inversion of a successful decode: every stage succeeded and the image
is assembled from the stage results. -/
theorem decode_image_ok_inv {buf : List Nat} {img : Image}
    (h : decode_image buf = DRes.ok img) :
    ∃ header dib cp data,
      read_bmp_id buf = DRes.ok () ∧
      read_bmp_header buf = DRes.ok header ∧
      read_bmp_dib_header buf = DRes.ok dib ∧
      read_color_palette buf dib = DRes.ok cp ∧
      (∀ pal, cp = some pal →
        read_indexes buf pal dib.width.natAbs dib.height.natAbs
          dib.bits_per_pixel header.pixel_offset = DRes.ok data) ∧
      (cp = none →
        read_pixels buf dib.width.natAbs dib.height.natAbs
          header.pixel_offset = DRes.ok data) ∧
      img =
        { header := header
          dib_header := BmpDibHeader.new dib.width.natAbs dib.height.natAbs
          color_palette := cp
          width := dib.width.natAbs
          height := dib.height.natAbs
          padding := dib.width.natAbs % 4
          data := data } := by
  rw [decode_image] at h
  cases h1 : read_bmp_id buf with
  | err k => rw [h1] at h; exact absurd h (by simp)
  | fatal => rw [h1] at h; exact absurd h (by simp)
  | ok u =>
    rw [h1, DRes.andThen_ok] at h
    cases h2 : read_bmp_header buf with
    | err k => rw [h2] at h; exact absurd h (by simp)
    | fatal => rw [h2] at h; exact absurd h (by simp)
    | ok header =>
      rw [h2, DRes.andThen_ok] at h
      cases h3 : read_bmp_dib_header buf with
      | err k => rw [h3] at h; exact absurd h (by simp)
      | fatal => rw [h3] at h; exact absurd h (by simp)
      | ok dib =>
        rw [h3, DRes.andThen_ok] at h
        cases h4 : read_color_palette buf dib with
        | err k => rw [h4] at h; exact absurd h (by simp)
        | fatal => rw [h4] at h; exact absurd h (by simp)
        | ok cp =>
          rw [h4, DRes.andThen_ok] at h
          cases u
          cases cp with
          | some pal =>
            simp only [] at h
            cases h5 : read_indexes buf pal dib.width.natAbs dib.height.natAbs
                dib.bits_per_pixel header.pixel_offset with
            | err k => rw [h5] at h; exact absurd h (by simp)
            | fatal => rw [h5] at h; exact absurd h (by simp)
            | ok data =>
              rw [h5, DRes.andThen_ok] at h
              simp only [DRes.ok.injEq] at h
              refine ⟨header, dib, some pal, data, rfl, rfl, rfl, h4, ?_, ?_, h.symm⟩
              · intro pal2 hp
                injection hp with hp2
                subst hp2
                exact h5
              · intro hn
                exact absurd hn (by simp)
          | none =>
            simp only [] at h
            cases h5 : read_pixels buf dib.width.natAbs dib.height.natAbs
                header.pixel_offset with
            | err k => rw [h5] at h; exact absurd h (by simp)
            | fatal => rw [h5] at h; exact absurd h (by simp)
            | ok data =>
              rw [h5, DRes.andThen_ok] at h
              simp only [DRes.ok.injEq] at h
              refine ⟨header, dib, none, data, rfl, rfl, rfl, h4, ?_, ?_, h.symm⟩
              · intro pal2 hp
                exact absurd hp (by simp)
              · intro hn
                exact h5

/-- The read_indexes row loop never produces a typed BmpError. -/
theorem read_indexes_rows_ne_err (buf : List Nat) (pal : List Pixel)
    (width bpp offset : Nat) :
    ∀ (rows y : Nat) (k : BmpErrorKind),
      read_indexes_rows buf pal width bpp offset y rows ≠ DRes.err k := by
  intro rows
  induction rows with
  | zero => intro y k; rw [read_indexes_rows]; simp
  | succ rows ih =>
    intro y k
    rw [read_indexes_rows]
    by_cases hle : offset + (bytes_per_row_f width bpp + padOf (bytes_per_row_f width bpp)) * y +
        bytes_per_row_f width bpp ≤ buf.length
    · rw [if_pos hle]
      cases hlk : lookupAll pal
          (bitIndexList
            ((buf.drop (offset +
                (bytes_per_row_f width bpp + padOf (bytes_per_row_f width bpp)) * y)).take
              (bytes_per_row_f width bpp)) bpp width) with
      | none => simp
      | some ps =>
        cases hrec : read_indexes_rows buf pal width bpp offset (y + 1) rows with
        | ok rest => simp
        | err k2 => exact absurd hrec (ih (y + 1) k2)
        | fatal => simp
    · rw [if_neg hle]; simp

/-- The read_pixels loop never produces a typed BmpError. -/
theorem read_pixels_go_ne_err (buf : List Nat) (offset : Nat) :
    ∀ (rem k : Nat) (e : BmpErrorKind),
      read_pixels_go buf offset k rem ≠ DRes.err e := by
  intro rem
  induction rem with
  | zero => intro k e; rw [read_pixels_go]; simp
  | succ rem ih =>
    intro k e
    rw [read_pixels_go]
    by_cases hle : offset + k * 4 + 3 ≤ buf.length
    · rw [if_pos hle]
      cases hrec : read_pixels_go buf offset (k + 1) rem with
      | ok rest => simp
      | err e2 => exact absurd hrec (ih (k + 1) e2)
      | fatal => simp
    · rw [if_neg hle]; simp

/-- The palette stage never reports UnsupportedCompressionType. -/
theorem read_color_palette_ne_uct (buf : List Nat) (dh : BmpDibHeader) :
    read_color_palette buf dh ≠
      DRes.err BmpErrorKind.UnsupportedCompressionType := by
  have hentries : ∀ n, read_palette_entries buf dh n ≠
      DRes.err BmpErrorKind.UnsupportedCompressionType := by
    intro n
    rw [read_palette_entries]
    rcases hv : BmpVersion.from_dib_header dh with _ | v
    · by_cases hle : 14 + dh.header_size + n * 4 ≤ buf.length
      · simp [hle]
      · simp [hle]
    · cases v <;> by_cases hle : 14 + dh.header_size + n * 4 ≤ buf.length <;>
        simp [hle]
  rw [read_color_palette]
  by_cases h0 : dh.num_colors ≠ 0
  · rw [if_pos h0]; exact hentries dh.num_colors
  · rw [if_neg h0]
    by_cases hb : dh.bits_per_pixel = 1 ∨ dh.bits_per_pixel = 4 ∨ dh.bits_per_pixel = 8
    · rw [if_pos hb]; exact hentries (1 <<< dh.bits_per_pixel)
    · rw [if_neg hb]; simp

/-- C1: for every row byte sequence, every nbits in 1, 4, 8 and every
size, the k-th yielded value of the bit-index iterator (counting from 0,
while k < size and the addressed byte exists) equals
(bytes[k*nbits/8] and (mask shifted left by offset)) shifted right by
offset, where mask is the low-nbits mask (2 ^ nbits - 1) and offset =
(8 - nbits) - (k*nbits) mod 8; on the single byte 0b10110100 = 180 with
nbits = 4, size = 2 it yields exactly [11, 4]; and the iterator yields
exactly min size (8 * length / nbits) values, nothing further once size
values have been produced or the byte position leaves the row. -/
theorem C1_bit_index_steps :
    (∀ (bytes : List Nat) (nbits size k : Nat),
      (nbits = 1 ∨ nbits = 4 ∨ nbits = 8) → k < size →
      k * nbits / 8 < bytes.length →
      (bitIndexList bytes nbits size)[k]? =
        some ((bytes.getD (k * nbits / 8) 0 &&&
            (bitMask nbits <<< ((8 - nbits) - (k * nbits) % 8))) >>>
          ((8 - nbits) - (k * nbits) % 8))) ∧
    (∀ nbits, (nbits = 1 ∨ nbits = 4 ∨ nbits = 8) →
      bitMask nbits = 2 ^ nbits - 1) ∧
    bitIndexList [180] 4 2 = [11, 4] ∧
    (∀ (bytes : List Nat) (nbits size : Nat),
      (nbits = 1 ∨ nbits = 4 ∨ nbits = 8) →
      (bitIndexList bytes nbits size).length =
        min size (8 * bytes.length / nbits)) := by
  refine ⟨?_, ?_, by decide, ?_⟩
  · intro bytes nbits size k hn hk hb
    have h := bitIndexFrom_get bytes nbits k size 0 hk (by simpa using hb)
    simpa [bitIndexList] using h
  · intro nbits hn
    rcases hn with h | h | h <;> subst h <;> decide
  · intro bytes nbits size hn
    rw [bitIndexList, bitIndexFrom_length bytes nbits hn size 0]
    congr 1
    rcases hn with h | h | h <;> subst h <;> omega

/-- C1 witness: the general step rule, mask value and length rule
evaluated on the concrete byte 180 with nbits = 4, size = 2. -/
theorem C1_bit_index_steps_witness :
    (bitIndexList [180] 4 2)[0]? = some 11 ∧
    bitMask 4 = 2 ^ 4 - 1 ∧
    (bitIndexList [180] 4 2).length = 2 :=
  ⟨(C1_bit_index_steps.1 [180] 4 2 0 (Or.inr (Or.inl rfl)) (by decide)
      (by decide)).trans (by decide),
   C1_bit_index_steps.2.1 4 (Or.inr (Or.inl rfl)),
   (C1_bit_index_steps.2.2.2 [180] 4 2 (Or.inr (Or.inl rfl))).trans (by decide)⟩

/-- C7: for every buffer of at least 2 bytes whose first two bytes are
not the magic bytes 66 77, decoding fails with WrongMagicNumbers
whatever the rest contains; and the magic stage succeeds exactly when
the first two bytes are the magic bytes. -/
theorem C7_magic_check (buf : List Nat) (hl : 2 ≤ buf.length) :
    (buf.take 2 ≠ [66, 77] →
      decode_image buf = DRes.err BmpErrorKind.WrongMagicNumbers) ∧
    (read_bmp_id buf = DRes.ok () ↔ buf.take 2 = [66, 77]) := by
  constructor
  · intro hm
    have hid : read_bmp_id buf = DRes.err BmpErrorKind.WrongMagicNumbers := by
      rw [read_bmp_id, if_pos hl, if_neg hm]
    rw [decode_image, hid, DRes.andThen_err]
  · constructor
    · intro h
      by_contra hm
      rw [read_bmp_id, if_pos hl, if_neg hm] at h
      exact absurd h (by simp)
    · intro hm
      exact read_bmp_id_ok hm

/-- C7 witness: the buffer [0, 1] has two bytes, is not magic, and
decoding it fails with WrongMagicNumbers. -/
theorem C7_magic_check_witness :
    decode_image [0, 1] = DRes.err BmpErrorKind.WrongMagicNumbers :=
  (C7_magic_check [0, 1] (by decide)).1 (by decide)

/-- C10: decode slices bytes 0 to 1, 2 to 13 and 14 to 53 before any
semantic validation beyond the magic check, so every buffer shorter than
2 bytes, and every buffer that starts with the magic bytes but is
shorter than 54 bytes, ends in a fatal bounds failure rather than a
typed BmpError. -/
theorem C10_short_buffer_fatal :
    (∀ buf : List Nat, buf.length < 2 → decode_image buf = DRes.fatal) ∧
    (∀ buf : List Nat, buf.take 2 = [66, 77] → buf.length < 54 →
      decode_image buf = DRes.fatal) := by
  constructor
  · intro buf hl
    have hid : read_bmp_id buf = DRes.fatal := by
      rw [read_bmp_id, if_neg (by omega)]
    rw [decode_image, hid, DRes.andThen_fatal]
  · intro buf hm hl
    rw [decode_image, read_bmp_id_ok hm, DRes.andThen_ok]
    by_cases h14 : 14 ≤ buf.length
    · rw [read_bmp_header_ok h14, DRes.andThen_ok]
      have hdib : read_bmp_dib_header buf = DRes.fatal := by
        rw [read_bmp_dib_header, if_neg (by omega)]
      rw [hdib, DRes.andThen_fatal]
    · have hh : read_bmp_header buf = DRes.fatal := by
        rw [read_bmp_header, if_neg h14]
      rw [hh, DRes.andThen_fatal]

/-- C10 witness: the empty buffer and a 14-byte magic-led buffer both
end in a fatal bounds failure. -/
theorem C10_short_buffer_fatal_witness :
    decode_image [] = DRes.fatal ∧
    decode_image ([66, 77] ++ List.replicate 12 0) = DRes.fatal :=
  ⟨C10_short_buffer_fatal.1 [] (by decide),
   C10_short_buffer_fatal.2 ([66, 77] ++ List.replicate 12 0) (by decide)
     (by decide)⟩

/-- A flat bottom-up index of an in-range coordinate is within a
width-times-height pixel store. -/
theorem flat_index_lt {w h x y : Nat} (hx : x < w) (hy : y < h) :
    (h - y - 1) * w + x < h * w := by
  have h1 : h - y - 1 ≤ h - 1 := by omega
  have h2 : (h - y - 1) * w ≤ (h - 1) * w := Nat.mul_le_mul_right w h1
  have h4 : (h - 1) * w + w = h * w := by
    have hh : h - 1 + 1 = h := by omega
    calc (h - 1) * w + w = (h - 1 + 1) * w := by ring
    _ = h * w := by rw [hh]
  omega

/-- Distinct in-range coordinates have distinct flat indices. -/
theorem flat_index_inj {w h x y x2 y2 : Nat} (hx : x < w) (hy : y < h)
    (hx2 : x2 < w) (hy2 : y2 < h)
    (heq : (h - y - 1) * w + x = (h - y2 - 1) * w + x2) :
    x = x2 ∧ y = y2 := by
  have hw : 0 < w := by omega
  have e1 : ((h - y - 1) * w + x) % w = x := by
    rw [Nat.add_comm ((h - y - 1) * w) x, Nat.add_mul_mod_self_right,
      Nat.mod_eq_of_lt hx]
  have e2 : ((h - y2 - 1) * w + x2) % w = x2 := by
    rw [Nat.add_comm ((h - y2 - 1) * w) x2, Nat.add_mul_mod_self_right,
      Nat.mod_eq_of_lt hx2]
  rw [heq] at e1
  have hxx : x = x2 := e1.symm.trans e2
  subst hxx
  have hyy : (h - y - 1) * w = (h - y2 - 1) * w := by omega
  have hsub := Nat.eq_of_mul_eq_mul_right hw hyy
  exact ⟨rfl, by omega⟩

/-- C8: for every Image with a full pixel store and every in-range
coordinate (x, y), after set_pixel(x, y, P) the accessor get_pixel(x, y)
returns P, every other in-range coordinate reads unchanged, and the
dimensions, headers and palette are unchanged. -/
theorem C8_set_get_roundtrip (img : Image) (x y : Nat) (P : Pixel)
    (hlen : img.data.length = img.width * img.height)
    (hx : x < img.width) (hy : y < img.height) :
    (img.set_pixel x y P).get_pixel x y = P ∧
    (∀ x2 y2, x2 < img.width → y2 < img.height → (x2, y2) ≠ (x, y) →
      (img.set_pixel x y P).get_pixel x2 y2 = img.get_pixel x2 y2) ∧
    (img.set_pixel x y P).width = img.width ∧
    (img.set_pixel x y P).height = img.height ∧
    (img.set_pixel x y P).header = img.header ∧
    (img.set_pixel x y P).dib_header = img.dib_header ∧
    (img.set_pixel x y P).color_palette = img.color_palette := by
  have hidx : (img.height - y - 1) * img.width + x < img.data.length := by
    rw [hlen, Nat.mul_comm img.width img.height]
    exact flat_index_lt hx hy
  refine ⟨?_, ?_, rfl, rfl, rfl, rfl, rfl⟩
  · rw [Image.get_pixel, Image.set_pixel]
    have hidx2 : (img.height - y - 1) * img.width + x <
        (img.data.set ((img.height - y - 1) * img.width + x) P).length := by
      rw [List.length_set]; exact hidx
    rw [List.getD_eq_getElem?_getD, List.getElem?_eq_getElem hidx2]
    simp [List.getElem_set_self]
  · intro x2 y2 hx2 hy2 hne
    have hne2 : (img.height - y - 1) * img.width + x ≠
        (img.height - y2 - 1) * img.width + x2 := by
      intro hc
      obtain ⟨e1, e2⟩ := flat_index_inj hx hy hx2 hy2 hc
      exact hne (by rw [← e1, ← e2])
    have hidxb : (img.height - y2 - 1) * img.width + x2 < img.data.length := by
      rw [hlen, Nat.mul_comm img.width img.height]
      exact flat_index_lt hx2 hy2
    have hidxb2 : (img.height - y2 - 1) * img.width + x2 <
        (img.data.set ((img.height - y - 1) * img.width + x) P).length := by
      rw [List.length_set]; exact hidxb
    rw [Image.get_pixel, Image.set_pixel, Image.get_pixel]
    rw [List.getD_eq_getElem?_getD, List.getElem?_eq_getElem hidxb2,
      List.getD_eq_getElem?_getD, List.getElem?_eq_getElem hidxb]
    simp [List.getElem_set_ne hne2]

/-- C8 witness: the round trip evaluated on a concrete 2 x 2 image. -/
theorem C8_set_get_roundtrip_witness :
    (c8img.set_pixel 0 1 { r := 9, g := 9, b := 9 }).get_pixel 0 1 =
      { r := 9, g := 9, b := 9 } ∧
    (c8img.set_pixel 0 1 { r := 9, g := 9, b := 9 }).get_pixel 1 0 =
      c8img.get_pixel 1 0 :=
  ⟨(C8_set_get_roundtrip c8img 0 1 { r := 9, g := 9, b := 9 } (by decide)
      (by decide) (by decide)).1,
   (C8_set_get_roundtrip c8img 0 1 { r := 9, g := 9, b := 9 } (by decide)
      (by decide) (by decide)).2.1 1 0 (by decide) (by decide) (by decide)⟩

/-- C3 counterexample: the buffer c3buf passes the magic, version and
bits-per-pixel checks and its compression code is 7, which is nonzero,
yet decode does not fail with UnsupportedCompressionType: it succeeds,
because from_u32 maps every code outside 1, 2, 3 to Uncompressed. -/
theorem C3_compression_counterexample :
    c3buf.take 2 = [66, 77] ∧
    BmpVersion.from_dib_header (parse_dib_raw c3buf) = some BmpVersion.Three ∧
    (parse_dib_raw c3buf).bits_per_pixel = 24 ∧
    (parse_dib_raw c3buf).compress_type = 7 ∧
    (parse_dib_raw c3buf).compress_type ≠ 0 ∧
    decode_image c3buf ≠ DRes.err BmpErrorKind.UnsupportedCompressionType ∧
    (match decode_image c3buf with
     | DRes.ok _ => true
     | _ => false) = true := by
  decide

/-- C3 (amended): for every buffer that passes the magic,
header-size/version and bits-per-pixel checks, decode fails with
UnsupportedCompressionType if and only if the compression code is one of
the named codes 1, 2, 3 (those with a non-Uncompressed from_u32 image);
every other code, zero or not, is treated as uncompressed. -/
theorem C3_compression_check (buf : List Nat)
    (hm : buf.take 2 = [66, 77]) (hl : 54 ≤ buf.length)
    (hv : BmpVersion.from_dib_header (parse_dib_raw buf) = some BmpVersion.Three ∨
      BmpVersion.from_dib_header (parse_dib_raw buf) = some BmpVersion.Four ∨
      BmpVersion.from_dib_header (parse_dib_raw buf) = some BmpVersion.Five)
    (hb : (parse_dib_raw buf).bits_per_pixel = 1 ∨
      (parse_dib_raw buf).bits_per_pixel = 4 ∨
      (parse_dib_raw buf).bits_per_pixel = 8 ∨
      (parse_dib_raw buf).bits_per_pixel = 24) :
    decode_image buf = DRes.err BmpErrorKind.UnsupportedCompressionType ↔
      ((parse_dib_raw buf).compress_type = 1 ∨
       (parse_dib_raw buf).compress_type = 2 ∨
       (parse_dib_raw buf).compress_type = 3) := by
  constructor
  · intro h
    by_contra hc
    have hu : CompressionType.from_u32 (parse_dib_raw buf).compress_type =
        CompressionType.Uncompressed := (from_u32_uncompressed_iff _).mpr hc
    have hdib : read_bmp_dib_header buf = DRes.ok (parse_dib_raw buf) := by
      rw [read_bmp_dib_header, if_pos hl]
      rcases hv with hv | hv | hv <;> rw [hv] <;>
        rw [dib_checks_tail, if_pos hb, hu]
    rw [decode_image, read_bmp_id_ok hm, DRes.andThen_ok,
      read_bmp_header_ok (by omega), DRes.andThen_ok, hdib, DRes.andThen_ok] at h
    cases hp : read_color_palette buf (parse_dib_raw buf) with
    | ok cp =>
      rw [hp, DRes.andThen_ok] at h
      cases cp with
      | some pal =>
        simp only [] at h
        cases hi : read_indexes buf pal (parse_dib_raw buf).width.natAbs
            (parse_dib_raw buf).height.natAbs (parse_dib_raw buf).bits_per_pixel
            (u32le ((buf.drop 10).take 4)) with
        | ok data => rw [hi, DRes.andThen_ok] at h; exact absurd h (by simp)
        | err k =>
          rw [read_indexes] at hi
          exact absurd hi (read_indexes_rows_ne_err buf pal _ _ _ _ _ k)
        | fatal => rw [hi, DRes.andThen_fatal] at h; exact absurd h (by simp)
      | none =>
        simp only [] at h
        cases hi : read_pixels buf (parse_dib_raw buf).width.natAbs
            (parse_dib_raw buf).height.natAbs (u32le ((buf.drop 10).take 4)) with
        | ok data => rw [hi, DRes.andThen_ok] at h; exact absurd h (by simp)
        | err k =>
          rw [read_pixels] at hi
          exact absurd hi (read_pixels_go_ne_err buf _ _ _ k)
        | fatal => rw [hi, DRes.andThen_fatal] at h; exact absurd h (by simp)
    | err k =>
      rw [hp, DRes.andThen_err] at h
      have hk : k = BmpErrorKind.UnsupportedCompressionType := by
        simpa using h
      subst hk
      exact absurd hp (read_color_palette_ne_uct buf _)
    | fatal => rw [hp, DRes.andThen_fatal] at h; exact absurd h (by simp)
  · intro hc
    have hu : CompressionType.from_u32 (parse_dib_raw buf).compress_type ≠
        CompressionType.Uncompressed := by
      intro he
      exact absurd hc ((from_u32_uncompressed_iff _).mp he)
    have hdib : read_bmp_dib_header buf =
        DRes.err BmpErrorKind.UnsupportedCompressionType := by
      rw [read_bmp_dib_header, if_pos hl]
      rcases hv with hv | hv | hv <;> rw [hv] <;>
        exact dib_checks_tail_err_compress hb hu
    rw [decode_image, read_bmp_id_ok hm, DRes.andThen_ok,
      read_bmp_header_ok (by omega), DRes.andThen_ok, hdib, DRes.andThen_err]

/-- C3 witness: on the concrete buffer with compression code 2, decode
fails with UnsupportedCompressionType, by the amended equivalence. -/
theorem C3_compression_check_witness :
    decode_image c3bufb = DRes.err BmpErrorKind.UnsupportedCompressionType :=
  (C3_compression_check c3bufb (by decide) (by decide) (Or.inl (by decide))
    (by decide)).mpr (Or.inr (Or.inl (by decide)))

/-- C4 counterexample: the buffer c4buf passes the version and
bits-per-pixel checks and has the nonzero compression code 5, so by the
claim the compression check should fail with
UnsupportedCompressionType; instead decode succeeds. -/
theorem C4_validation_order_counterexample :
    BmpVersion.from_dib_header (parse_dib_raw c4buf) = some BmpVersion.Three ∧
    (parse_dib_raw c4buf).bits_per_pixel = 24 ∧
    (parse_dib_raw c4buf).compress_type = 5 ∧
    (parse_dib_raw c4buf).compress_type ≠ 0 ∧
    decode_image c4buf ≠ DRes.err BmpErrorKind.UnsupportedCompressionType ∧
    (match decode_image c4buf with
     | DRes.ok _ => true
     | _ => false) = true := by
  decide

/-- C4 (amended): format-header validation runs its checks in the fixed
order (unknown header size then UnsupportedHeader; V2 or V3-NT then
UnsupportedBmpVersion; bits-per-pixel outside 1, 4, 8, 24 then
UnsupportedBitsPerPixel; compression code in 1, 2, 3 -- not every
nonzero code -- then UnsupportedCompressionType) and the first failing
check alone determines the error: a buffer with header size 12 fails
with UnsupportedBmpVersion even though its bits-per-pixel 16 is also
unsupported, and a buffer with header size 40 and compression 3 fails
with UnsupportedBmpVersion (V3-NT), not UnsupportedCompressionType. -/
theorem C4_validation_order (buf : List Nat) (hl : 54 ≤ buf.length) :
    (BmpVersion.from_dib_header (parse_dib_raw buf) = none →
      read_bmp_dib_header buf = DRes.err BmpErrorKind.UnsupportedHeader) ∧
    ((BmpVersion.from_dib_header (parse_dib_raw buf) = some BmpVersion.Two ∨
      BmpVersion.from_dib_header (parse_dib_raw buf) = some BmpVersion.ThreeNT) →
      read_bmp_dib_header buf = DRes.err BmpErrorKind.UnsupportedBmpVersion) ∧
    ((BmpVersion.from_dib_header (parse_dib_raw buf) = some BmpVersion.Three ∨
      BmpVersion.from_dib_header (parse_dib_raw buf) = some BmpVersion.Four ∨
      BmpVersion.from_dib_header (parse_dib_raw buf) = some BmpVersion.Five) →
      ¬((parse_dib_raw buf).bits_per_pixel = 1 ∨
        (parse_dib_raw buf).bits_per_pixel = 4 ∨
        (parse_dib_raw buf).bits_per_pixel = 8 ∨
        (parse_dib_raw buf).bits_per_pixel = 24) →
      read_bmp_dib_header buf = DRes.err BmpErrorKind.UnsupportedBitsPerPixel) ∧
    ((BmpVersion.from_dib_header (parse_dib_raw buf) = some BmpVersion.Three ∨
      BmpVersion.from_dib_header (parse_dib_raw buf) = some BmpVersion.Four ∨
      BmpVersion.from_dib_header (parse_dib_raw buf) = some BmpVersion.Five) →
      ((parse_dib_raw buf).bits_per_pixel = 1 ∨
        (parse_dib_raw buf).bits_per_pixel = 4 ∨
        (parse_dib_raw buf).bits_per_pixel = 8 ∨
        (parse_dib_raw buf).bits_per_pixel = 24) →
      CompressionType.from_u32 (parse_dib_raw buf).compress_type ≠
        CompressionType.Uncompressed →
      read_bmp_dib_header buf =
        DRes.err BmpErrorKind.UnsupportedCompressionType) ∧
    decode_image c4buf12 = DRes.err BmpErrorKind.UnsupportedBmpVersion ∧
    decode_image c4buf40c3 = DRes.err BmpErrorKind.UnsupportedBmpVersion := by
  refine ⟨?_, ?_, ?_, ?_, by decide, by decide⟩
  · intro hv
    rw [read_bmp_dib_header, if_pos hl, hv]
  · intro hv
    rcases hv with hv | hv <;> rw [read_bmp_dib_header, if_pos hl, hv]
  · intro hv hb
    rcases hv with hv | hv | hv <;>
      rw [read_bmp_dib_header, if_pos hl, hv, dib_checks_tail, if_neg hb]
  · intro hv hb hc
    rcases hv with hv | hv | hv <;>
      rw [read_bmp_dib_header, if_pos hl, hv] <;>
      exact dib_checks_tail_err_compress hb hc

/-- C4 witness: the ordered checks evaluated on a concrete buffer with
compression code 1, which fails the fourth check. -/
theorem C4_validation_order_witness :
    read_bmp_dib_header c4bufb =
      DRes.err BmpErrorKind.UnsupportedCompressionType :=
  (C4_validation_order c4bufb (by decide)).2.2.2.1 (Or.inl (by decide))
    (by decide) (by decide)

/-- C5: in the indexed decode path, for every supported bit depth the
bytes-per-row count computed by the source via f64 division equals the
exact integer quotient width / (8 / nbits), the per-row padding equals
(4 - bytes_per_row mod 4) mod 4, and a successful read slices row y as
exactly bytes_per_row bytes starting at offset + (bytes_per_row +
padding) * y (each row slice lies within the buffer and the padding
bytes are never interpreted). -/
theorem C5_row_arithmetic :
    (∀ width bpp, (bpp = 1 ∨ bpp = 4 ∨ bpp = 8) →
      bytes_per_row_f width bpp = width / (8 / bpp)) ∧
    (∀ b, padOf b = (4 - b % 4) % 4) ∧
    (∀ (buf : List Nat) (pal : List Pixel) (width height bpp offset : Nat)
        (l : List Pixel),
      read_indexes buf pal width height bpp offset = DRes.ok l →
      l = (List.range height).flatMap
            (fun y => row_slice_pixels buf pal width bpp offset y) ∧
      ∀ y, y < height →
        offset +
            (bytes_per_row_f width bpp + padOf (bytes_per_row_f width bpp)) * y +
            bytes_per_row_f width bpp ≤ buf.length) := by
  refine ⟨bytes_per_row_f_eq_div, padOf_eq, ?_⟩
  intro buf pal width height bpp offset l h
  rw [read_indexes] at h
  obtain ⟨h1, h2⟩ := read_indexes_rows_ok buf pal width bpp offset height 0 l h
  constructor
  · rw [h1, List.range_eq_range']
  · intro y hy
    exact h2 y (List.mem_range'_1.mpr ⟨Nat.zero_le y, by omega⟩)

/-- C5 witness: the three parts evaluated on a concrete 2 x 2 4-bit
read: bytes_per_row 2 / (8 / 4) = 1, padding 3, and the decomposition of
the decoded rows. -/
theorem C5_row_arithmetic_witness :
    bytes_per_row_f 2 4 = 2 / (8 / 4) ∧
    padOf 1 = (4 - 1 % 4) % 4 ∧
    read_indexes c5buf c5pal 2 2 4 0 =
      DRes.ok [{ r := 1, g := 1, b := 1 }, { r := 2, g := 2, b := 2 },
        { r := 3, g := 3, b := 3 }, { r := 4, g := 4, b := 4 }] ∧
    [{ r := 1, g := 1, b := 1 }, { r := 2, g := 2, b := 2 },
        { r := 3, g := 3, b := 3 }, { r := 4, g := 4, b := 4 }] =
      (List.range 2).flatMap (fun y => row_slice_pixels c5buf c5pal 2 4 0 y) := by
  have hr : read_indexes c5buf c5pal 2 2 4 0 =
      DRes.ok [{ r := 1, g := 1, b := 1 }, { r := 2, g := 2, b := 2 },
        { r := 3, g := 3, b := 3 }, { r := 4, g := 4, b := 4 }] := by decide
  exact ⟨C5_row_arithmetic.1 2 4 (Or.inr (Or.inl rfl)), C5_row_arithmetic.2.1 1,
    hr, (C5_row_arithmetic.2.2 c5buf c5pal 2 2 4 0 _ hr).1⟩

/-- C6: in the direct-color path, a successful read gives, for every
logical position (x, y) in range, the pixel read from the three bytes at
offset + (y*width+x)*4 (the fourth byte of the slot is skipped), with
the on-disk blue, green, red bytes reordered into r, g, b; and the
concrete 1 x 1 image with pixel bytes [5, 6, 7, 8] decodes so that
get_pixel(0,0) = Pixel with r 7, g 6, b 5. -/
theorem C6_direct_color :
    (∀ (buf : List Nat) (width height offset : Nat) (l : List Pixel),
      read_pixels buf width height offset = DRes.ok l →
      ∀ x y, x < width → y < height →
        offset + (y * width + x) * 4 + 3 ≤ buf.length ∧
        l.getD (y * width + x) { r := 0, g := 0, b := 0 } =
          { r := byteAt buf (offset + (y * width + x) * 4 + 2)
            g := byteAt buf (offset + (y * width + x) * 4 + 1)
            b := byteAt buf (offset + (y * width + x) * 4) }) ∧
    (match decode_image c6buf with
     | DRes.ok img => some (img.get_pixel 0 0)
     | _ => none) = some { r := 7, g := 6, b := 5 } := by
  refine ⟨?_, by decide⟩
  intro buf width height offset l h x y hx hy
  rw [read_pixels] at h
  obtain ⟨hlen, hget⟩ := read_pixels_go_ok buf offset (height * width) 0 l h
  have hk : y * width + x < height * width := by
    have hstep : y * width + x < (y + 1) * width := by
      have : (y + 1) * width = y * width + width := by ring
      omega
    have hmul : (y + 1) * width ≤ height * width :=
      Nat.mul_le_mul_right width (by omega)
    omega
  have hgot := hget (y * width + x) hk
  simp only [Nat.zero_add] at hgot
  obtain ⟨hb, hv⟩ := hgot
  refine ⟨hb, ?_⟩
  rw [hv]
  have e2 : byteAt ((buf.drop (offset + (y * width + x) * 4)).take 3) 2 =
      byteAt buf (offset + (y * width + x) * 4 + 2) := by
    rw [byteAt, byteAt, getD_take_drop _ _ _ _ (by omega) (by omega)]
  have e1 : byteAt ((buf.drop (offset + (y * width + x) * 4)).take 3) 1 =
      byteAt buf (offset + (y * width + x) * 4 + 1) := by
    rw [byteAt, byteAt, getD_take_drop _ _ _ _ (by omega) (by omega)]
  have e0 : byteAt ((buf.drop (offset + (y * width + x) * 4)).take 3) 0 =
      byteAt buf (offset + (y * width + x) * 4) := by
    rw [byteAt, byteAt, getD_take_drop _ _ _ _ (by omega) (by omega), Nat.add_zero]
  rw [e2, e1, e0]

/-- C6 witness: the general slot rule applied to the concrete buffer
c6buf at position (0, 0). -/
theorem C6_direct_color_witness :
    54 + (0 * 1 + 0) * 4 + 3 ≤ c6buf.length ∧
    [({ r := 7, g := 6, b := 5 } : Pixel)].getD (0 * 1 + 0)
        { r := 0, g := 0, b := 0 } =
      { r := byteAt c6buf (54 + (0 * 1 + 0) * 4 + 2)
        g := byteAt c6buf (54 + (0 * 1 + 0) * 4 + 1)
        b := byteAt c6buf (54 + (0 * 1 + 0) * 4) } :=
  C6_direct_color.1 c6buf 1 1 54 [{ r := 7, g := 6, b := 5 }] (by decide) 0 0
    (by decide) (by decide)

/-- C2 counterexample: c2buf is a 1 x 1 image with the supported bit
depth 1 on the indexed path; decode succeeds, yet the returned data has
0 pixels while width * height = 1, because bytes_per_row = 0 and the
bit-index iterator stops at the end of the empty row slice.  No error is
reported: the truncated image is returned. -/
theorem C2_data_length_counterexample :
    (parse_dib_raw c2buf).bits_per_pixel = 1 ∧
    (match decode_image c2buf with
     | DRes.ok img => some (img.width, img.height, img.data.length)
     | _ => none) = some (1, 1, 0) := by
  decide

/-- C2 (amended): for every buffer on which decode succeeds, the
returned data has length width * height in the direct-color case (zero
declared colors and 24 bits per pixel) and in the indexed case whenever
width * bits_per_pixel is a multiple of 8 (in particular always for 8
bits per pixel); when width * bits_per_pixel is not a multiple of 8 the
indexed rows are silently truncated, as the counterexample shows. -/
theorem C2_data_length (buf : List Nat) (img : Image)
    (h : decode_image buf = DRes.ok img)
    (hcase :
      ((parse_dib_raw buf).num_colors = 0 ∧
        (parse_dib_raw buf).bits_per_pixel = 24) ∨
      (((parse_dib_raw buf).bits_per_pixel = 1 ∨
        (parse_dib_raw buf).bits_per_pixel = 4 ∨
        (parse_dib_raw buf).bits_per_pixel = 8) ∧
       (parse_dib_raw buf).width.natAbs * (parse_dib_raw buf).bits_per_pixel % 8 =
         0)) :
    img.data.length = img.width * img.height := by
  obtain ⟨header, dib, cp, data, h1, h2, h3, h4, h5some, h5none, himg⟩ :=
    decode_image_ok_inv h
  obtain ⟨hdib_eq, hl, hv, hbpp, hcomp⟩ := read_bmp_dib_header_ok_inv h3
  subst hdib_eq
  cases cp with
  | none =>
    have h5 := h5none rfl
    rw [read_pixels] at h5
    obtain ⟨hlen, _⟩ := read_pixels_go_ok buf header.pixel_offset _ 0 data h5
    rw [himg]
    simp only []
    rw [hlen, Nat.mul_comm]
  | some pal =>
    rcases hcase with ⟨h0, h24⟩ | ⟨hbs, hdiv⟩
    · exfalso
      rw [read_color_palette_none_of h0 h24] at h4
      exact absurd h4 (by simp)
    · have h5 := h5some pal rfl
      rw [read_indexes] at h5
      obtain ⟨hflat, hrows⟩ :=
        read_indexes_rows_ok buf pal (parse_dib_raw buf).width.natAbs
          (parse_dib_raw buf).bits_per_pixel header.pixel_offset
          (parse_dib_raw buf).height.natAbs 0 data h5
      have hbpr : bytes_per_row_f (parse_dib_raw buf).width.natAbs
          (parse_dib_raw buf).bits_per_pixel =
          (parse_dib_raw buf).width.natAbs * (parse_dib_raw buf).bits_per_pixel / 8 :=
        bytes_per_row_f_eq_mul _ _ hbs
      have hrowlen : ∀ y, y < (parse_dib_raw buf).height.natAbs →
          (row_slice_pixels buf pal (parse_dib_raw buf).width.natAbs
            (parse_dib_raw buf).bits_per_pixel header.pixel_offset y).length =
            (parse_dib_raw buf).width.natAbs := by
        intro y hy
        have hbound := hrows y (List.mem_range'_1.mpr ⟨Nat.zero_le y, by omega⟩)
        rw [row_slice_pixels, List.length_map, bitIndexList,
          bitIndexFrom_length _ _ hbs]
        have hslice : ((buf.drop (header.pixel_offset +
            (bytes_per_row_f (parse_dib_raw buf).width.natAbs
                (parse_dib_raw buf).bits_per_pixel +
              padOf (bytes_per_row_f (parse_dib_raw buf).width.natAbs
                (parse_dib_raw buf).bits_per_pixel)) * y)).take
            (bytes_per_row_f (parse_dib_raw buf).width.natAbs
              (parse_dib_raw buf).bits_per_pixel)).length =
            bytes_per_row_f (parse_dib_raw buf).width.natAbs
              (parse_dib_raw buf).bits_per_pixel := by
          simp only [List.length_take, List.length_drop]
          omega
        rw [hslice, hbpr]
        rcases hbs with hb1 | hb1 | hb1 <;> rw [hb1] <;> rw [hb1] at hdiv <;> omega
      rw [himg]
      simp only []
      rw [hflat, List.length_flatMap]
      have hall : ∀ v ∈ List.map
          (List.length ∘ fun r => row_slice_pixels buf pal
            (parse_dib_raw buf).width.natAbs (parse_dib_raw buf).bits_per_pixel
            header.pixel_offset r)
          (List.range' 0 (parse_dib_raw buf).height.natAbs),
          v = (parse_dib_raw buf).width.natAbs := by
        intro v hvv
        rw [List.mem_map] at hvv
        obtain ⟨r, hr, hveq⟩ := hvv
        rw [← hveq]
        exact hrowlen r (by
          have := List.mem_range'_1.mp hr
          omega)
      rw [List.sum_eq_card_nsmul _ _ hall, List.length_map, List.length_range',
        nsmul_eq_mul, Nat.mul_comm]
      simp

/-- C2 witness: the valid 1 x 1 24-bit buffer decodes to the expected
image, whose data length 1 equals width * height. -/
theorem C2_data_length_witness :
    decode_image c2okbuf = DRes.ok c2okimg ∧
    c2okimg.data.length = c2okimg.width * c2okimg.height :=
  ⟨by decide, C2_data_length c2okbuf c2okimg (by decide) (Or.inl (by decide))⟩

/-- C9: the format header of c9buf declares one palette color and the
palette built has exactly that one entry, yet the bit-index iterator
yields the 8-bit value 5 from the pixel byte, so the indexed path looks
up palette index 5 in a one-entry palette: decode ends in a fatal
out-of-bounds indexing failure, not a typed BmpError, while the same
buffer with an in-bounds pixel byte decodes successfully. -/
theorem C9_palette_oob_fatal :
    (parse_dib_raw c9buf).num_colors = 1 ∧
    read_color_palette c9buf (parse_dib_raw c9buf) =
      DRes.ok (some [{ r := 0, g := 0, b := 0 }]) ∧
    bitIndexList [5] 8 1 = [5] ∧
    decode_image c9buf = DRes.fatal ∧
    (match decode_image c9okbuf with
     | DRes.ok img => some img.data.length
     | _ => none) = some 1 := by
  decide

end BmpProof
